import Mathlib

/-!
Verification of the collaborative-filtering notebook
(`jax_collaborative_filter.ipynb`).

The notebook's core is: a batched dot-product rating predictor
(`calc_people_ratings` vmapped over songs), a mean-absolute-error loss
(`loss`), the gradient of that loss with respect to the preference
parameters (`grad(loss)`), a fixed-count gradient-descent training loop,
and a personalization loop reusing the same pieces on a rating subset.

The embedding is parametric over a linear ordered field, so every
definition is executable at `ℚ` (for concrete evaluation) and the same
definitions instantiate at `ℝ` (for the derivative theorem).  Matrices
are Mathlib `Matrix` values indexed by `Fin`.
-/

namespace JaxCF

variable {α : Type} [LinearOrderedField α]
variable {I A F : ℕ}

/-- Notebook constant `songs = 100`: number of songs in the simulated library. -/
def songs : ℕ := 100

/-- Notebook constant `features = 3`: the feature dimension F. -/
def features : ℕ := 3

/-- Notebook constant `staff = 5`: number of simulated raters. -/
def staff : ℕ := 5

/-- Notebook constant `numrounds = 600`: the fixed iteration count of the optimizer. -/
def numrounds : ℕ := 600

/-- Notebook constant `learning_rate = 0.2`. -/
def learning_rate : α := 2 / 10

/-- Embedding of `calc_people_ratings(song, people_preferences)`, i.e.
`jnp.sum(song * people_preferences, axis=1)`: the length-F vector `song` is
broadcast against each row of the Agent×F preference matrix and summed along
the feature axis, giving one predicted rating per agent. -/
def calc_people_ratings (song : Fin F → α)
    (people_preferences : Matrix (Fin A) (Fin F) α) : Fin A → α :=
  fun u => ∑ f, song f * people_preferences u f

/-- Embedding of `vmap(calc_people_ratings, in_axes=(0,None))(song_data, params)`:
row i of the Item×Agent result is `calc_people_ratings` applied to feature row i. -/
def predictAll (song_data : Matrix (Fin I) (Fin F) α)
    (params : Matrix (Fin A) (Fin F) α) : Matrix (Fin I) (Fin A) α :=
  fun i => calc_people_ratings (song_data i) params

/-- Embedding of `loss(params, target, song_data)`:
`jnp.mean(jnp.abs(target - pred))` where
`pred = vmap(calc_people_ratings, in_axes=(0,None))(song_data, params)`.
The mean divides the summed absolute error by the Item×Agent entry count. -/
def loss (params : Matrix (Fin A) (Fin F) α) (target : Matrix (Fin I) (Fin A) α)
    (song_data : Matrix (Fin I) (Fin F) α) : α :=
  (∑ i, ∑ u, |target i u - predictAll song_data params i u|) / ((I : α) * (A : α))

/-- Sign with `sgn 0 = 0`: the convention the spec's §4.3 adopts for the
subgradient of the absolute value at exact matches.  This is the spec's
stated policy choice, used here only to state the spec's closed form; it is
not what `jax` computes at 0 — see `absGrad`. -/
def sgn (x : α) : α := if x < 0 then -1 else if 0 < x then 1 else 0

/-- The derivative rule `jax` applies to `jnp.abs`: its JVP is
`select(x >= 0, g, -g)`, so the derivative is 1 wherever `0 ≤ x`
(including exactly 0) and -1 where `x < 0`. -/
def absGrad (x : α) : α := if 0 ≤ x then 1 else -1

/-- Embedding of `grad(loss)(params, target, song_data)`: what reverse-mode
differentiation of `loss` computes.  The backward pass of
`mean(abs(target - pred))` seeds every entry with `1/(I*A)`, the `abs` rule
multiplies by `absGrad (target - pred)` (the `select(x >= 0, g, -g)` rule),
the subtraction `target - pred` contributes the factor -1 toward the
prediction, and the backward pass of the linear predictor accumulates
against the feature matrix, giving entry (u,f) as the mean over items of
`-absGrad (target - pred) * feature`. -/
def gradLoss (params : Matrix (Fin A) (Fin F) α) (target : Matrix (Fin I) (Fin A) α)
    (song_data : Matrix (Fin I) (Fin F) α) : Matrix (Fin A) (Fin F) α :=
  fun u f =>
    (∑ i, -absGrad (target i u - predictAll song_data params i u) * song_data i f) /
      ((I : α) * (A : α))

/-- One update line `people_params = people_params - gradient_loss * learning_rate`. -/
def gdStep (song_data : Matrix (Fin I) (Fin F) α) (target : Matrix (Fin I) (Fin A) α)
    (lr : α) (params : Matrix (Fin A) (Fin F) α) : Matrix (Fin A) (Fin F) α :=
  fun u f => params u f - gradLoss params target song_data u f * lr

/-- Embedding of the training loop body of cell 18, run over a list of
iteration indices (`for i in range(numrounds)`).  Each iteration computes
`current_loss`, computes the gradient, applies exactly one update, and
appends `(i, current_loss)` to the printed log when `i % 50 == 0`. -/
def trainSteps (song_data : Matrix (Fin I) (Fin F) α) (target : Matrix (Fin I) (Fin A) α)
    (lr : α) : List ℕ → Matrix (Fin A) (Fin F) α × List (ℕ × α) →
    Matrix (Fin A) (Fin F) α × List (ℕ × α)
  | [], st => st
  | i :: rest, (p, log) =>
    let current_loss := loss p target song_data
    let p' := gdStep song_data target lr p
    trainSteps song_data target lr rest
      (p', if i % 50 = 0 then log ++ [(i, current_loss)] else log)

/-- The full training run of cell 18: fold the loop body over
`range n` starting from the initial parameters with an empty log. -/
def train (song_data : Matrix (Fin I) (Fin F) α) (target : Matrix (Fin I) (Fin A) α)
    (lr : α) (n : ℕ) (p : Matrix (Fin A) (Fin F) α) :
    Matrix (Fin A) (Fin F) α × List (ℕ × α) :=
  trainSteps song_data target lr (List.range n) (p, [])

/-- Embedding of the personalization loop body of cell 29, run over a list of
iteration indices.  Each iteration computes `current_loss`, computes the
gradient and applies one update; when `i % 50 == 0` the logging branch
recomputes the loss and the gradient at the already-updated parameters,
applies a second update, and prints the recomputed loss. -/
def persSteps (song_data : Matrix (Fin I) (Fin F) α) (target : Matrix (Fin I) (Fin A) α)
    (lr : α) : List ℕ → Matrix (Fin A) (Fin F) α × List (ℕ × α) →
    Matrix (Fin A) (Fin F) α × List (ℕ × α)
  | [], st => st
  | i :: rest, (p, log) =>
    let current_loss := loss p target song_data
    let p1 := gdStep song_data target lr p
    if i % 50 = 0 then
      let current_loss2 := loss p1 target song_data
      let p2 := gdStep song_data target lr p1
      persSteps song_data target lr rest (p2, log ++ [(i, current_loss2)])
    else
      persSteps song_data target lr rest (p1, log)

/-- The full personalization run of cell 29: fold the loop body over
`range n` starting from the fresh new-member parameters with an empty log. -/
def persTrain (song_data : Matrix (Fin I) (Fin F) α) (target : Matrix (Fin I) (Fin A) α)
    (lr : α) (n : ℕ) (p : Matrix (Fin A) (Fin F) α) :
    Matrix (Fin A) (Fin F) α × List (ℕ × α) :=
  persSteps song_data target lr (List.range n) (p, [])

/-- Replace entry (u,f) of a parameter matrix by t; used to state the
coordinatewise derivative of the loss in the parameter entry (u,f). -/
def updateEntry (p : Matrix (Fin A) (Fin F) α) (u : Fin A) (f : Fin F) (t : α) :
    Matrix (Fin A) (Fin F) α :=
  fun u' f' => if u' = u ∧ f' = f then t else p u' f'

/-- The Loss Function contract in the spec's words: the mean of the absolute
elementwise difference between a predicted and a target Item×Agent matrix.
Stated from the spec, for comparison against the notebook's `loss`. -/
def spec_mae (predicted target : Matrix (Fin I) (Fin A) α) : α :=
  (∑ i, ∑ u, |predicted i u - target i u|) / ((I : α) * (A : α))

/-- The notebook's three-argument `loss` agrees with the spec's two-argument
mean-absolute-error contract applied to the batched prediction. -/
lemma loss_eq_spec_mae (params : Matrix (Fin A) (Fin F) α)
    (target : Matrix (Fin I) (Fin A) α) (song_data : Matrix (Fin I) (Fin F) α) :
    loss params target song_data = spec_mae (predictAll song_data params) target := by
  unfold loss spec_mae
  congr 1
  exact Finset.sum_congr rfl fun i _ =>
    Finset.sum_congr rfl fun u _ => abs_sub_comm _ _

/-- The parameter component of the loop state is the iterate of `gdStep` and
does not depend on the log component or on which iterations were logged. -/
lemma trainSteps_fst (song_data : Matrix (Fin I) (Fin F) α)
    (target : Matrix (Fin I) (Fin A) α) (lr : α) :
    ∀ (l : List ℕ) (p : Matrix (Fin A) (Fin F) α) (log : List (ℕ × α)),
      (trainSteps song_data target lr l (p, log)).1 =
        (gdStep song_data target lr)^[l.length] p := by
  intro l
  induction l with
  | nil => intro p log; rfl
  | cons i rest ih =>
    intro p log
    show (trainSteps song_data target lr rest _).1 = _
    rw [ih]
    exact (Function.iterate_succ_apply (gdStep song_data target lr) rest.length p).symm

/-- C2: entry u of `calc_people_ratings song prefs` is the dot product of the
song's feature vector with agent u's preference row, and entry (i,u) of the
batched prediction is the dot product of feature row i with parameter row u —
a cartesian broadcast scoring every item against every agent. -/
theorem C2_predict_is_dot_product (song : Fin F → α)
    (prefs : Matrix (Fin A) (Fin F) α) (song_data : Matrix (Fin I) (Fin F) α)
    (params : Matrix (Fin A) (Fin F) α) (i : Fin I) (u : Fin A) :
    calc_people_ratings song prefs u = Matrix.dotProduct song (prefs u) ∧
      predictAll song_data params i u = Matrix.dotProduct (song_data i) (params u) :=
  ⟨rfl, rfl⟩

/-- C3: the notebook's `loss` is the mean of the absolute elementwise
differences between the predicted and the target Item×Agent matrices. -/
theorem C3_loss_is_mean_absolute_error (params : Matrix (Fin A) (Fin F) α)
    (target : Matrix (Fin I) (Fin A) α) (song_data : Matrix (Fin I) (Fin F) α) :
    loss params target song_data = spec_mae (predictAll song_data params) target :=
  loss_eq_spec_mae params target song_data

/-- C5: the training run performs exactly n iterations of the gradient step —
the final parameters are the n-fold iterate of `gdStep`, with no dependence on
the loss values encountered and no early exit — and the notebook's fixed
iteration count is 600. -/
theorem C5_fixed_iteration_count (song_data : Matrix (Fin I) (Fin F) α)
    (target : Matrix (Fin I) (Fin A) α) (lr : α) (n : ℕ)
    (p : Matrix (Fin A) (Fin F) α) :
    (train song_data target lr n p).1 = (gdStep song_data target lr)^[n] p ∧
      numrounds = 600 := by
  constructor
  · rw [train, trainSteps_fst, List.length_range]
  · rfl

/-- C6: the mean absolute error of a matrix against itself is 0; it is
nonnegative for all equal-shaped pairs; it is 0 exactly when the matrices are
entrywise equal; and the notebook's `loss` computes exactly this quantity on
the batched prediction. -/
theorem C6_loss_zero_iff_equal :
    (∀ X : Matrix (Fin I) (Fin A) α, spec_mae X X = 0) ∧
    (∀ P T : Matrix (Fin I) (Fin A) α,
      0 ≤ spec_mae P T ∧ (spec_mae P T = 0 ↔ P = T)) ∧
    (∀ (params : Matrix (Fin A) (Fin F) α) (target : Matrix (Fin I) (Fin A) α)
      (song_data : Matrix (Fin I) (Fin F) α),
      loss params target song_data = spec_mae (predictAll song_data params) target) := by
  refine ⟨fun X => by simp [spec_mae], fun P T => ⟨?_, ?_, ?_⟩,
    fun params target song_data => loss_eq_spec_mae params target song_data⟩
  · apply div_nonneg
    · exact Finset.sum_nonneg fun i _ => Finset.sum_nonneg fun u _ => abs_nonneg _
    · positivity
  · intro h
    rcases div_eq_zero_iff.mp h with hs | hc
    · have houter := (Finset.sum_eq_zero_iff_of_nonneg
        (fun i _ => Finset.sum_nonneg fun u _ => abs_nonneg (P i u - T i u))).mp hs
      funext i u
      have hinner := (Finset.sum_eq_zero_iff_of_nonneg
        (fun u _ => abs_nonneg (P i u - T i u))).mp (houter i (Finset.mem_univ i))
      have := hinner u (Finset.mem_univ u)
      rw [abs_eq_zero, sub_eq_zero] at this
      exact this
    · rcases mul_eq_zero.mp hc with hI | hA
      · have : I = 0 := Nat.cast_eq_zero.mp hI
        subst this
        funext i
        exact i.elim0
      · have : A = 0 := Nat.cast_eq_zero.mp hA
        subst this
        funext i u
        exact u.elim0
  · intro h
    subst h
    simp [spec_mae]

/-- A concrete 1×1 all-ones matrix over ℚ, used for concrete evaluations. -/
def ones1 : Matrix (Fin 1) (Fin 1) ℚ := fun _ _ => 1

/-- A concrete 1×1 all-zeros matrix over ℚ, used for concrete evaluations. -/
def zeros1 : Matrix (Fin 1) (Fin 1) ℚ := fun _ _ => 0

/-- C4 (evaluation at the failing input): on its very first iteration
(i = 0, which satisfies `i % 50 == 0`), the personalization loop applies the
gradient step twice — the logging branch re-derives the gradient and updates
the parameters a second time — so after one loop iteration the parameter is
the double step 2/5, not the single step 1/5 that one update would give. -/
theorem C4_personalization_double_update :
    (persTrain ones1 ones1 (1 / 5) 1 zeros1).1 0 0 =
      gdStep ones1 ones1 (1 / 5) (gdStep ones1 ones1 (1 / 5) zeros1) 0 0 ∧
    gdStep ones1 ones1 (1 / 5) zeros1 0 0 = 1 / 5 ∧
    (persTrain ones1 ones1 (1 / 5) 1 zeros1).1 0 0 = 2 / 5 := by
  refine ⟨?_, ?_, ?_⟩ <;>
    simp [persTrain, persSteps, gdStep, gradLoss, predictAll, calc_people_ratings,
      absGrad, loss, ones1, zeros1, List.range_succ] <;> norm_num

/-- Row u of the gradient depends only on row u of the parameters and on
column u of the target matrix (besides the shared feature matrix). -/
lemma gradLoss_row_congr (d : Matrix (Fin I) (Fin F) α)
    (t₁ t₂ : Matrix (Fin I) (Fin A) α) (p₁ p₂ : Matrix (Fin A) (Fin F) α)
    (u : Fin A) (ht : ∀ i, t₁ i u = t₂ i u) (hp : p₁ u = p₂ u) (f : Fin F) :
    gradLoss p₁ t₁ d u f = gradLoss p₂ t₂ d u f := by
  unfold gradLoss
  congr 1
  refine Finset.sum_congr rfl fun i _ => ?_
  have hpred : predictAll d p₁ i u = predictAll d p₂ i u := by
    unfold predictAll calc_people_ratings
    exact Finset.sum_congr rfl fun f' _ => by rw [hp]
  rw [hpred, ht i]

/-- Row u of one gradient-descent step depends only on row u of the
parameters and column u of the target. -/
lemma gdStep_row_congr (d : Matrix (Fin I) (Fin F) α)
    (t₁ t₂ : Matrix (Fin I) (Fin A) α) (lr : α)
    (p₁ p₂ : Matrix (Fin A) (Fin F) α) (u : Fin A)
    (ht : ∀ i, t₁ i u = t₂ i u) (hp : p₁ u = p₂ u) :
    gdStep d t₁ lr p₁ u = gdStep d t₂ lr p₂ u := by
  funext f
  unfold gdStep
  rw [congrFun hp f, gradLoss_row_congr d t₁ t₂ p₁ p₂ u ht hp f]

/-- Row u of the n-fold gradient-descent iterate depends only on row u of the
initial parameters and column u of the target. -/
lemma iterate_row_congr (d : Matrix (Fin I) (Fin F) α)
    (t₁ t₂ : Matrix (Fin I) (Fin A) α) (lr : α) (u : Fin A)
    (ht : ∀ i, t₁ i u = t₂ i u) :
    ∀ (n : ℕ) (p₁ p₂ : Matrix (Fin A) (Fin F) α), p₁ u = p₂ u →
      ((gdStep d t₁ lr)^[n] p₁) u = ((gdStep d t₂ lr)^[n] p₂) u := by
  intro n
  induction n with
  | zero => intro p₁ p₂ hp; exact hp
  | succ n ih =>
    intro p₁ p₂ hp
    rw [Function.iterate_succ_apply, Function.iterate_succ_apply]
    exact ih _ _ (gdStep_row_congr d t₁ t₂ lr p₁ p₂ u ht hp)

/-- C10: per-agent noninterference of training.  Two runs with the same
feature matrix, learning rate, iteration count and shapes, whose targets
agree on column u and whose initial parameters agree on row u, produce
identical fitted parameter row u, regardless of the other agents' ratings
or initial parameters. -/
theorem C10_per_agent_noninterference (d : Matrix (Fin I) (Fin F) α)
    (t₁ t₂ : Matrix (Fin I) (Fin A) α) (lr : α) (n : ℕ)
    (p₁ p₂ : Matrix (Fin A) (Fin F) α) (u : Fin A)
    (ht : ∀ i, t₁ i u = t₂ i u) (hp : p₁ u = p₂ u) :
    (train d t₁ lr n p₁).1 u = (train d t₂ lr n p₂).1 u := by
  unfold train
  rw [trainSteps_fst, trainSteps_fst, List.length_range]
  exact iterate_row_congr d t₁ t₂ lr u ht n p₁ p₂ hp

/-- Concrete targets and parameter matrices for the C10 witness: two runs
agreeing only on target column 0 and initial parameter row 0. -/
def t1w : Matrix (Fin 1) (Fin 2) ℚ := fun _ u => if u = 0 then 1 else 5

/-- Second target matrix of the C10 witness, differing in column 1. -/
def t2w : Matrix (Fin 1) (Fin 2) ℚ := fun _ u => if u = 0 then 1 else 7

/-- First initial parameter matrix of the C10 witness. -/
def p1w : Matrix (Fin 2) (Fin 1) ℚ := fun u _ => if u = 0 then 0 else 3

/-- Second initial parameter matrix of the C10 witness, differing in row 1. -/
def p2w : Matrix (Fin 2) (Fin 1) ℚ := fun u _ => if u = 0 then 0 else 4

/-- Witness for C10 at a concrete instance: the hypotheses hold for the
concrete targets/parameters above, and the fitted row 0 coincides. -/
theorem C10_per_agent_noninterference_witness :
    (∀ i : Fin 1, t1w i 0 = t2w i 0) ∧ p1w 0 = p2w 0 ∧
      (train ones1 t1w (1 / 5) 1 p1w).1 0 = (train ones1 t2w (1 / 5) 1 p2w).1 0 := by
  have ht : ∀ i : Fin 1, t1w i 0 = t2w i 0 := fun i => by simp [t1w, t2w]
  have hp : p1w 0 = p2w 0 := by funext f; simp [p1w, p2w]
  exact ⟨ht, hp, C10_per_agent_noninterference ones1 t1w t2w (1 / 5) 1 p1w p2w 0 ht hp⟩

/-- Away from 0, the spec's sign convention and jax's abs rule agree. -/
lemma sgn_eq_absGrad_of_ne {x : α} (hx : x ≠ 0) : sgn x = absGrad x := by
  rcases hx.lt_or_lt with h | h
  · rw [sgn, absGrad, if_pos h, if_neg (not_le.mpr h)]
  · rw [sgn, absGrad, if_neg (not_lt.mpr h.le), if_pos h, if_pos h.le]

/-- The absolute value has derivative `sgn x` at every nonzero point. -/
lemma hasDerivAt_abs_sgn {x : ℝ} (hx : x ≠ 0) :
    HasDerivAt (fun y : ℝ => |y|) (sgn x) x := by
  rcases hx.lt_or_lt with h | h
  · have hs : sgn x = -1 := by rw [sgn, if_pos h]
    rw [hs]
    exact hasDerivAt_abs_neg h
  · have hs : sgn x = 1 := by rw [sgn, if_neg (not_lt.mpr h.le), if_pos h]
    rw [hs]
    exact hasDerivAt_abs_pos h

/-- Chain rule for the absolute value of a function with nonzero value. -/
lemma hasDerivAt_abs_comp {g : ℝ → ℝ} {g₁ x r : ℝ} (hg : HasDerivAt g g₁ x)
    (hr : g x = r) (h0 : r ≠ 0) :
    HasDerivAt (fun t => |g t|) (sgn r * g₁) x := by
  have habs : HasDerivAt (fun y : ℝ => |y|) (sgn r) (g x) := by
    rw [hr]
    exact hasDerivAt_abs_sgn h0
  simpa [Function.comp] using habs.comp x hg

/-- Predictions for an agent other than u are unchanged when entry (u,f) of
the parameters is replaced. -/
lemma predictAll_updateEntry_ne (d : Matrix (Fin I) (Fin F) α)
    (p : Matrix (Fin A) (Fin F) α) (u u' : Fin A) (f : Fin F) (t : α) (i : Fin I)
    (h : u' ≠ u) :
    predictAll d (updateEntry p u f t) i u' = predictAll d p i u' := by
  unfold predictAll calc_people_ratings updateEntry
  refine Finset.sum_congr rfl fun f' _ => ?_
  rw [if_neg fun hc => h hc.1]

/-- The prediction for agent u is affine in the replaced parameter entry,
with slope the item's f-th feature. -/
lemma predictAll_updateEntry_eq (d : Matrix (Fin I) (Fin F) α)
    (p : Matrix (Fin A) (Fin F) α) (u : Fin A) (f : Fin F) (t : α) (i : Fin I) :
    predictAll d (updateEntry p u f t) i u =
      predictAll d p i u + d i f * (t - p u f) := by
  unfold predictAll calc_people_ratings updateEntry
  have hterm : ∀ f' : Fin F,
      d i f' * (if u = u ∧ f' = f then t else p u f')
        = d i f' * p u f' + (if f' = f then d i f' * (t - p u f') else 0) := by
    intro f'
    by_cases hf : f' = f
    · subst hf
      rw [if_pos ⟨rfl, rfl⟩, if_pos rfl]
      ring
    · rw [if_neg fun hc => hf hc.2, if_neg hf, add_zero]
  rw [Finset.sum_congr rfl fun f' _ => hterm f', Finset.sum_add_distrib,
    Finset.sum_ite_eq' Finset.univ f fun f' => d i f' * (t - p u f')]
  simp

/-- At a parameter point where every item with nonzero f-th feature has a
nonzero residual for agent u, the loss — viewed as a function of the single
parameter entry (u,f) — has derivative `gradLoss` at that entry. -/
lemma loss_hasDerivAt (p : Matrix (Fin A) (Fin F) ℝ) (target : Matrix (Fin I) (Fin A) ℝ)
    (d : Matrix (Fin I) (Fin F) ℝ) (u : Fin A) (f : Fin F)
    (h : ∀ i, d i f ≠ 0 → predictAll d p i u ≠ target i u) :
    HasDerivAt (fun t => loss (updateEntry p u f t) target d)
      (gradLoss p target d u f) (p u f) := by
  have main : HasDerivAt
      (fun t => ∑ i, ∑ u', |target i u' - predictAll d (updateEntry p u f t) i u'|)
      (∑ i : Fin I, ∑ u' : Fin A,
        if u' = u then -absGrad (target i u - predictAll d p i u) * d i f else 0)
      (p u f) := by
    apply HasDerivAt.sum
    intro i _
    apply HasDerivAt.sum
    intro u' _
    by_cases hu : u' = u
    · subst hu
      rw [if_pos rfl]
      have heq : (fun t => |target i u' - predictAll d (updateEntry p u' f t) i u'|)
          = fun t => |target i u' - predictAll d p i u' - d i f * (t - p u' f)| := by
        funext t
        rw [predictAll_updateEntry_eq]
        congr 1
        ring
      rw [heq]
      by_cases hd : d i f = 0
      · rw [hd]
        simp only [zero_mul, sub_zero, mul_zero]
        exact hasDerivAt_const _ _
      · have hr : target i u' - predictAll d p i u' ≠ 0 :=
          sub_ne_zero.mpr (Ne.symm (h i hd))
        have hg : HasDerivAt
            (fun t => target i u' - predictAll d p i u' - d i f * (t - p u' f))
            (-(d i f)) (p u' f) := by
          have h1 : HasDerivAt (fun t : ℝ => t - p u' f) 1 (p u' f) :=
            (hasDerivAt_id _).sub_const _
          have h2 := h1.const_mul (d i f)
          have h3 := h2.const_sub (target i u' - predictAll d p i u')
          simpa using h3
        have hval : -absGrad (target i u' - predictAll d p i u') * d i f
            = sgn (target i u' - predictAll d p i u') * -(d i f) := by
          rw [sgn_eq_absGrad_of_ne hr]
          ring
        rw [hval]
        exact hasDerivAt_abs_comp hg (by simp) hr
    · rw [if_neg hu]
      have heq : (fun t => |target i u' - predictAll d (updateEntry p u f t) i u'|)
          = fun _ => |target i u' - predictAll d p i u'| := by
        funext t
        rw [predictAll_updateEntry_ne d p u u' f t i hu]
      rw [heq]
      exact hasDerivAt_const _ _
  have hdiv := main.div_const ((I : ℝ) * (A : ℝ))
  have hval : (∑ i : Fin I, ∑ u' : Fin A,
      if u' = u then -absGrad (target i u - predictAll d p i u) * d i f else 0)
        / ((I : ℝ) * (A : ℝ)) = gradLoss p target d u f := by
    unfold gradLoss
    congr 1
    refine Finset.sum_congr rfl fun i _ => ?_
    rw [Finset.sum_ite_eq' Finset.univ u
      fun _ => -absGrad (target i u - predictAll d p i u) * d i f]
    simp
  rw [← hval]
  exact hdiv

/-- C1 counterexample: at an entry of exact zero residual the program's
gradient is not the claim's `sign(0) = 0` closed form.  With one item of
feature 1, one agent with parameter 0 and target rating 0, the prediction
equals the target, the claimed closed form gives 0, but the embedded
`grad(loss)` gives -1 (jax's abs rule has derivative 1 at 0, negated by the
`target - pred` orientation). -/
theorem C1_sign_zero_counterexample :
    gradLoss zeros1 zeros1 ones1 0 0 = -1 ∧
      1 / ((1 : ℚ) * 1) *
        (∑ i : Fin 1, sgn (predictAll ones1 zeros1 i 0 - zeros1 i 0) * ones1 i 0) = 0 ∧
      gradLoss zeros1 zeros1 ones1 0 0 ≠
        1 / ((1 : ℚ) * 1) *
          (∑ i : Fin 1, sgn (predictAll ones1 zeros1 i 0 - zeros1 i 0) * ones1 i 0) := by
  refine ⟨?_, ?_, ?_⟩ <;>
    simp [gradLoss, absGrad, sgn, predictAll, calc_people_ratings, ones1, zeros1]

/-- C1 (amended): the gradient of the loss with respect to the parameters
equals the closed-form subgradient with `jax`'s convention at exact-zero
residuals: entry (u,f) of the embedded `grad(loss)` is
`1/(Item-count × Agent-count) · Σ_i s(i,u) · itemFeatures[i][f]` with
`s(i,u) = 1` on positive residuals `predicted - target` and `s(i,u) = -1` on
negative and exact-zero residuals (jax's abs rule `select(x >= 0, g, -g)` has
derivative 1 at 0, negated by the `target - pred` orientation — not the
spec's `sign(0) = 0`).  Moreover, wherever the loss is differentiable in the
entry (u,f) — every item with nonzero f-th feature has a nonzero residual —
this closed form is the true derivative of the loss in that entry. -/
theorem C1_gradient_closed_form_amended (p : Matrix (Fin A) (Fin F) ℝ)
    (target : Matrix (Fin I) (Fin A) ℝ) (d : Matrix (Fin I) (Fin F) ℝ)
    (u : Fin A) (f : Fin F) :
    gradLoss p target d u f =
      1 / ((I : ℝ) * (A : ℝ)) *
        ∑ i, (if 0 < predictAll d p i u - target i u then 1 else (-1 : ℝ)) * d i f ∧
    ((∀ i, d i f ≠ 0 → predictAll d p i u ≠ target i u) →
      HasDerivAt (fun t => loss (updateEntry p u f t) target d)
        (gradLoss p target d u f) (p u f)) := by
  constructor
  · rw [gradLoss]
    have hsum : (∑ i, -absGrad (target i u - predictAll d p i u) * d i f)
        = ∑ i, (if 0 < predictAll d p i u - target i u then 1 else (-1 : ℝ)) * d i f := by
      refine Finset.sum_congr rfl fun i _ => ?_
      by_cases hlt : 0 < predictAll d p i u - target i u
      · have h1 : target i u - predictAll d p i u < 0 := by linarith
        rw [if_pos hlt, absGrad, if_neg (not_le.mpr h1)]
        ring
      · have h1 : 0 ≤ target i u - predictAll d p i u := by
          have h2 := not_lt.mp hlt
          linarith
        rw [if_neg hlt, absGrad, if_pos h1]
    rw [hsum]
    ring
  · exact loss_hasDerivAt p target d u f

/-- All-ones 1×1 real matrix for the C1 witness. -/
def onesR : Matrix (Fin 1) (Fin 1) ℝ := fun _ _ => 1

/-- All-zeros 1×1 real matrix for the C1 witness. -/
def zerosR : Matrix (Fin 1) (Fin 1) ℝ := fun _ _ => 0

/-- Witness for the amended C1 at a concrete instance: one item with feature
1, one agent with parameter 0, target rating 1.  The residual is nonzero, so
the hypothesis holds and the closed-form subgradient is the derivative. -/
theorem C1_gradient_closed_form_amended_witness :
    (∀ i : Fin 1, onesR i 0 ≠ 0 → predictAll onesR zerosR i 0 ≠ onesR i 0) ∧
      HasDerivAt (fun t => loss (updateEntry zerosR 0 0 t) onesR onesR)
        (gradLoss zerosR onesR onesR 0 0) (zerosR 0 0) := by
  have h : ∀ i : Fin 1, onesR i 0 ≠ 0 → predictAll onesR zerosR i 0 ≠ onesR i 0 := by
    intro i _
    show (∑ f : Fin 1, onesR i f * zerosR 0 f) ≠ onesR i 0
    simp [onesR, zerosR]
  exact ⟨h, (C1_gradient_closed_form_amended zerosR onesR onesR 0 0).2 h⟩

/-- C7: the batched prediction (the per-item vmap of the dot-product
predictor) equals the dense matrix product of the feature matrix with the
transposed parameter matrix. -/
theorem C7_predictAll_is_matmul (song_data : Matrix (Fin I) (Fin F) α)
    (params : Matrix (Fin A) (Fin F) α) :
    predictAll song_data params = song_data * params.transpose := by
  funext i u
  rw [Matrix.mul_apply]
  rfl

end JaxCF
